import Mathlib

/-!
# Verification of the ramayanquiz resilient-access and result-shaping layer

Shallow embedding, in Lean 4, of the core subsystems of the repository:

* the result grouper inside `database.list_questions` (database.py, lines
  356-384), which folds an ordered flattened left-join row sequence into
  question objects each owning its ordered answer list;
* the two-query paginated fetch protocol of `database.list_questions`
  (database.py, lines 318-357);
* the retry decorator `database.retry_with_new_connection` (lines 120-133)
  and the cached connection factory `database.get_database_connection`
  (lines 88-117);
* the bulk insert with partial success `database.create_questions_bulk`
  (lines 272-314);
* the fixed-window rate limiter `rate_limit.RateLimiter.check` (lines 38-69)
  over a Redis-like keyed counter store;
* the endpoint glue in `main.py`: the rate-limit gate of `get_questions` and
  `_health`, and the error mapping of `post_question`.

Machine integers do not overflow in any of the modelled paths (row ids are
Postgres serials), so counters and ids are plain `Nat`.  Fallible operations
return `Except`.
-/

/-- Error classes raised by the psycopg2 layer, as distinguished by the
source's `except` clauses. -/
inductive PGError where
  | interfaceError
  | operationalError
  | uniqueViolation
  | otherError
deriving DecidableEq, Repr

/-! ## The flattened join row and the grouped output shapes

`JoinRow` mirrors one row of the `SELECT` in `list_questions`:
`questions.id as id, question, difficulty, kanda, tags, information,
answers.id as answer_id, answer, is_correct, question_hindi, question_telugu,
answer_hindi, answer_telugu`.  The answer-side columns are nullable because of
the `LEFT JOIN`. -/
structure JoinRow where
  id : Nat
  question : String
  difficulty : Option String
  kanda : Option String
  tags : List String
  information : Option String
  answer_id : Option Nat
  answer : Option String
  is_correct : Option Bool
  question_hindi : Option String
  question_telugu : Option String
  answer_hindi : Option String
  answer_telugu : Option String
deriving DecidableEq, Repr

/-- The answer dict built at lines 371/375/382: its `id` field is copied from
the row's nullable `answer_id` as-is. -/
structure AnswerOut where
  id : Option Nat
  answer : Option String
  is_correct : Option Bool
  answer_hindi : Option String
  answer_telugu : Option String
deriving DecidableEq, Repr

/-- The question dict appended to `grouped_answers` (lines 366-368/378-380). -/
structure QuestionOut where
  id : Nat
  question : String
  difficulty : Option String
  kanda : Option String
  tags : List String
  question_telugu : Option String
  question_hindi : Option String
  information : Option String
  answers : List AnswerOut
deriving DecidableEq, Repr

/-- The answer projection of a row (the dict literal at lines 371/375/382). -/
def answerOf (r : JoinRow) : AnswerOut :=
  ⟨r.answer_id, r.answer, r.is_correct, r.answer_hindi, r.answer_telugu⟩

/-- The question projection of a row, with an empty `answers` list (the dict
literal at lines 366-368 and 378-380). -/
def questionOf (r : JoinRow) : QuestionOut :=
  ⟨r.id, r.question, r.difficulty, r.kanda, r.tags, r.question_telugu,
   r.question_hindi, r.information, []⟩

/-- `grouped_answers[-1]['answers'].append(...)`. -/
def appendAnswer (q : QuestionOut) (a : AnswerOut) : QuestionOut :=
  { q with answers := q.answers ++ [a] }

/-- Seeding a new group from a row: append the question projection and, when
`answer_id` is not the null sentinel, its first answer (lines 365-371 and
377-382). -/
def seedGroup (r : JoinRow) : QuestionOut :=
  if r.answer_id.isSome then appendAnswer (questionOf r) (answerOf r)
  else questionOf r

/-- The `for index in range(1, len(questions))` loop of lines 372-382.
`firstq` is the Python variable `first_question` (the row that started the
current group), `cur` is `grouped_answers[-1]`, and `acc` is the rest of
`grouped_answers`. -/
def groupLoop (firstq : JoinRow) (cur : QuestionOut) (acc : List QuestionOut) :
    List JoinRow → List QuestionOut
  | [] => acc ++ [cur]
  | r :: rs =>
    if r.id = firstq.id then
      groupLoop firstq (appendAnswer cur (answerOf r)) acc rs
    else
      groupLoop r (seedGroup r) (acc ++ [cur]) rs

/-- The grouping pass of `list_questions` (lines 356-384): an empty row list is
returned as-is, otherwise the first row seeds the first group and the loop
processes the remaining rows. -/
def list_questions_group : List JoinRow → List QuestionOut
  | [] => []
  | r :: rs => groupLoop r (seedGroup r) [] rs

/-! ## Specification-side helper: distinct keys in first-seen order -/

/-- The distinct elements of a list, in order of first occurrence. -/
def firstSeenKeys : List Nat → List Nat
  | [] => []
  | x :: xs => x :: firstSeenKeys (xs.filter (fun y => y ≠ x))
termination_by l => l.length
decreasing_by
  simp only [List.length_cons]
  exact Nat.lt_succ_of_le (List.length_filter_le _ _)

theorem firstSeenKeys_nil : firstSeenKeys [] = [] := by
  rw [firstSeenKeys]

theorem firstSeenKeys_cons (x : Nat) (xs : List Nat) :
    firstSeenKeys (x :: xs) = x :: firstSeenKeys (xs.filter (fun y => y ≠ x)) := by
  rw [firstSeenKeys]

theorem mem_of_mem_firstSeenKeys_aux :
    ∀ (n : Nat) (l : List Nat), l.length ≤ n → ∀ x ∈ firstSeenKeys l, x ∈ l := by
  intro n
  induction n with
  | zero =>
    intro l hl x hx
    rw [List.length_eq_zero.mp (Nat.le_zero.mp hl)] at hx ⊢
    rw [firstSeenKeys_nil] at hx
    exact hx
  | succ n ih =>
    intro l hl x hx
    match l with
    | [] => rw [firstSeenKeys_nil] at hx; exact absurd hx (List.not_mem_nil x)
    | y :: ys =>
      rw [firstSeenKeys_cons] at hx
      rcases List.mem_cons.mp hx with h | h
      · exact h ▸ List.mem_cons_self _ _
      · have hlen : (ys.filter (fun y' => y' ≠ y)).length ≤ n :=
          Nat.le_trans (List.length_filter_le _ _)
            (Nat.le_of_succ_le_succ (by simpa using hl))
        exact List.mem_cons_of_mem _ (List.mem_of_mem_filter (ih _ hlen x h))

theorem mem_of_mem_firstSeenKeys (l : List Nat) :
    ∀ x ∈ firstSeenKeys l, x ∈ l :=
  mem_of_mem_firstSeenKeys_aux l.length l (Nat.le_refl _)

theorem mem_firstSeenKeys_of_mem_aux :
    ∀ (n : Nat) (l : List Nat), l.length ≤ n → ∀ x ∈ l, x ∈ firstSeenKeys l := by
  intro n
  induction n with
  | zero =>
    intro l hl x hx
    rw [List.length_eq_zero.mp (Nat.le_zero.mp hl)] at hx
    exact absurd hx (List.not_mem_nil x)
  | succ n ih =>
    intro l hl x hx
    match l with
    | [] => exact absurd hx (List.not_mem_nil x)
    | y :: ys =>
      rw [firstSeenKeys_cons]
      by_cases hxy : x = y
      · exact hxy ▸ List.mem_cons_self _ _
      · rcases List.mem_cons.mp hx with h | h
        · exact absurd h hxy
        · have hlen : (ys.filter (fun y' => y' ≠ y)).length ≤ n :=
            Nat.le_trans (List.length_filter_le _ _)
              (Nat.le_of_succ_le_succ (by simpa using hl))
          refine List.mem_cons_of_mem _ (ih _ hlen x ?_)
          exact List.mem_filter.mpr ⟨h, by simpa using hxy⟩

theorem mem_firstSeenKeys_of_mem (l : List Nat) :
    ∀ x ∈ l, x ∈ firstSeenKeys l :=
  mem_firstSeenKeys_of_mem_aux l.length l (Nat.le_refl _)

/-! ## Basic facts about the grouping loop -/

theorem seedGroup_id (r : JoinRow) : (seedGroup r).id = r.id := by
  unfold seedGroup
  split <;> rfl

theorem withAnswers_id (c : QuestionOut) (xs : List AnswerOut) :
    ({ c with answers := xs } : QuestionOut).id = c.id := rfl

theorem withAnswers_answers (c : QuestionOut) (xs : List AnswerOut) :
    ({ c with answers := xs } : QuestionOut).answers = xs := rfl

theorem groupLoop_acc :
    ∀ (rs : List JoinRow) (f : JoinRow) (c : QuestionOut) (acc : List QuestionOut),
    groupLoop f c acc rs = acc ++ groupLoop f c [] rs := by
  intro rs
  induction rs with
  | nil => intro f c acc; simp [groupLoop]
  | cons r rs ih =>
    intro f c acc
    by_cases h : r.id = f.id
    · simp only [groupLoop, if_pos h]
      exact ih f _ acc
    · simp only [groupLoop, if_neg h]
      rw [ih r (seedGroup r) (acc ++ [c]), ih r (seedGroup r) ([] ++ [c])]
      simp

/-- One step of the grouping pass: the first row's block is folded into the
first output group, and the remaining rows are grouped recursively. -/
theorem groupLoop_eq :
    ∀ (rs : List JoinRow) (f : JoinRow) (c : QuestionOut),
    groupLoop f c [] rs =
      { c with answers :=
          c.answers ++ (rs.takeWhile (fun x => x.id == f.id)).map answerOf }
        :: list_questions_group (rs.dropWhile (fun x => x.id == f.id)) := by
  intro rs
  induction rs with
  | nil =>
    intro f c
    simp [groupLoop, list_questions_group]
  | cons r rs ih =>
    intro f c
    by_cases h : r.id = f.id
    · simp only [groupLoop, if_pos h]
      rw [ih f (appendAnswer c (answerOf r))]
      have hp : (r.id == f.id) = true := by simpa using h
      simp [appendAnswer, List.takeWhile_cons, hp, List.dropWhile_cons]
    · simp only [groupLoop, if_neg h]
      rw [groupLoop_acc]
      have hp : (r.id == f.id) = false := by simpa using h
      simp [List.takeWhile_cons, hp, List.dropWhile_cons, list_questions_group]

theorem dropWhile_head_false {α : Type} (p : α → Bool) :
    ∀ (l : List α) (a : α) (t : List α), l.dropWhile p = a :: t → p a = false := by
  intro l
  induction l with
  | nil => intro a t h; simp [List.dropWhile] at h
  | cons x xs ih =>
    intro a t h
    by_cases hx : p x = true
    · rw [List.dropWhile_cons, if_pos hx] at h
      exact ih a t h
    · rw [List.dropWhile_cons, if_neg hx] at h
      cases h
      simpa using hx

theorem takeWhile_append_all {α : Type} (p : α → Bool) :
    ∀ (xs ys : List α), (∀ x ∈ xs, p x = true) →
    (xs ++ ys).takeWhile p = xs ++ ys.takeWhile p := by
  intro xs
  induction xs with
  | nil => intro ys _; simp
  | cons x xs ih =>
    intro ys h
    have hx : p x = true := h x (List.mem_cons_self _ _)
    simp only [List.cons_append, List.takeWhile_cons, hx, if_true]
    rw [ih ys fun y hy => h y (List.mem_cons_of_mem _ hy)]

theorem dropWhile_append_all {α : Type} (p : α → Bool) :
    ∀ (xs ys : List α), (∀ x ∈ xs, p x = true) →
    (xs ++ ys).dropWhile p = ys.dropWhile p := by
  intro xs
  induction xs with
  | nil => intro ys _; simp
  | cons x xs ih =>
    intro ys h
    have hx : p x = true := h x (List.mem_cons_self _ _)
    simp only [List.cons_append, List.dropWhile_cons, hx, if_true]
    exact ih ys fun y hy => h y (List.mem_cons_of_mem _ hy)

theorem takeWhile_block_id (r : JoinRow) (rest : List JoinRow) :
    ∀ x ∈ rest.takeWhile (fun x => x.id == r.id), x.id = r.id := by
  intro x hx
  simpa using List.mem_takeWhile_imp hx

theorem dropWhile_block_gt (r : JoinRow) (rest : List JoinRow)
    (hle : ∀ x ∈ rest, r.id ≤ x.id)
    (hsorted : rest.Pairwise (fun a b => a.id ≤ b.id)) :
    ∀ x ∈ rest.dropWhile (fun x => x.id == r.id), r.id < x.id := by
  cases hA : rest.dropWhile (fun x => x.id == r.id) with
  | nil => intro x hx; exact absurd hx (List.not_mem_nil x)
  | cons a t =>
    have hsub : List.Sublist (a :: t) rest := hA ▸ List.dropWhile_sublist _
    have hpa : (a.id == r.id) = false := dropWhile_head_false _ rest a t hA
    have hne : a.id ≠ r.id := by simpa using hpa
    have h1 : r.id < a.id :=
      lt_of_le_of_ne (hle a (hsub.mem (List.mem_cons_self _ _))) (Ne.symm hne)
    intro x hx
    rcases List.mem_cons.mp hx with rfl | hx'
    · exact h1
    · have hpw : (a :: t).Pairwise (fun a b => a.id ≤ b.id) := hsorted.sublist hsub
      exact lt_of_lt_of_le h1 ((List.pairwise_cons.mp hpw).1 x hx')

/-- Characterization of the grouping pass on sorted, left-join-shaped rows:
one output group per distinct parent key in first-seen order, and each group's
answer list is the projection of that parent's non-null rows in row order. -/
theorem group_spec :
    ∀ (n : Nat) (rows : List JoinRow), rows.length ≤ n →
    rows.Pairwise (fun a b => a.id ≤ b.id) →
    rows.Pairwise (fun a b => a.id = b.id →
      a.answer_id.isSome = true ∧ b.answer_id.isSome = true) →
    ((list_questions_group rows).map (fun g => g.id) =
        firstSeenKeys (rows.map (fun x => x.id)))
    ∧ (∀ g ∈ list_questions_group rows,
        g.answers =
          (rows.filter (fun x => x.id == g.id && x.answer_id.isSome)).map answerOf) := by
  intro n
  induction n with
  | zero =>
    intro rows hl _ _
    rw [List.length_eq_zero.mp (Nat.le_zero.mp hl)]
    constructor
    · simp [list_questions_group, firstSeenKeys_nil]
    · intro g hg
      simp [list_questions_group] at hg
  | succ n ih =>
    intro rows hl hsorted hshape
    match rows with
    | [] =>
      constructor
      · simp [list_questions_group, firstSeenKeys_nil]
      · intro g hg
        simp [list_questions_group] at hg
    | r :: rest =>
      have hle : ∀ x ∈ rest, r.id ≤ x.id := (List.pairwise_cons.mp hsorted).1
      have hsorted' : rest.Pairwise (fun a b => a.id ≤ b.id) :=
        (List.pairwise_cons.mp hsorted).2
      have hPr : ∀ x ∈ rest, r.id = x.id →
          r.answer_id.isSome = true ∧ x.answer_id.isSome = true :=
        (List.pairwise_cons.mp hshape).1
      have hshape' : rest.Pairwise (fun a b => a.id = b.id →
          a.answer_id.isSome = true ∧ b.answer_id.isSome = true) :=
        (List.pairwise_cons.mp hshape).2
      have hblock : ∀ x ∈ rest.takeWhile (fun x => x.id == r.id), x.id = r.id :=
        takeWhile_block_id r rest
      have hblockmem : ∀ x ∈ rest.takeWhile (fun x => x.id == r.id), x ∈ rest :=
        fun x hx => (List.takeWhile_sublist _).mem hx
      have hsplit : rest.takeWhile (fun x => x.id == r.id) ++
          rest.dropWhile (fun x => x.id == r.id) = rest :=
        List.takeWhile_append_dropWhile _ _
      have haftergt : ∀ x ∈ rest.dropWhile (fun x => x.id == r.id), r.id < x.id :=
        dropWhile_block_gt r rest hle hsorted'
      have hlen' : (rest.dropWhile (fun x => x.id == r.id)).length ≤ n :=
        Nat.le_trans (List.dropWhile_sublist _).length_le
          (Nat.le_of_succ_le_succ (by simpa using hl))
      obtain ⟨ihA, ihB⟩ := ih (rest.dropWhile (fun x => x.id == r.id)) hlen'
        (hsorted'.sublist (List.dropWhile_sublist _))
        (hshape'.sublist (List.dropWhile_sublist _))
      have hpeel : list_questions_group (r :: rest) =
          { seedGroup r with answers := (seedGroup r).answers ++
              ((rest.takeWhile (fun x => x.id == r.id)).map answerOf) }
            :: list_questions_group (rest.dropWhile (fun x => x.id == r.id)) :=
        groupLoop_eq rest r (seedGroup r)
      constructor
      · rw [hpeel]
        simp only [List.map_cons, withAnswers_id, seedGroup_id]
        rw [ihA, firstSeenKeys_cons]
        have hfeq : (rest.map (fun x => x.id)).filter (fun y => y ≠ r.id) =
            (rest.dropWhile (fun x => x.id == r.id)).map (fun x => x.id) := by
          conv_lhs => rw [← hsplit]
          rw [List.map_append, List.filter_append]
          have h1 : ((rest.takeWhile (fun x => x.id == r.id)).map
              (fun x => x.id)).filter (fun y => y ≠ r.id) = [] := by
            rw [List.filter_eq_nil_iff]
            intro a ha
            obtain ⟨x, hx, rfl⟩ := List.mem_map.mp ha
            simp [hblock x hx]
          have h2 : ((rest.dropWhile (fun x => x.id == r.id)).map
              (fun x => x.id)).filter (fun y => y ≠ r.id) =
              (rest.dropWhile (fun x => x.id == r.id)).map (fun x => x.id) := by
            rw [List.filter_eq_self]
            intro a ha
            obtain ⟨x, hx, rfl⟩ := List.mem_map.mp ha
            simp [Nat.ne_of_gt (haftergt x hx)]
          rw [h1, h2, List.nil_append]
        rw [hfeq]
      · intro g hg
        rw [hpeel] at hg
        rcases List.mem_cons.mp hg with rfl | hg'
        · simp only [withAnswers_answers, withAnswers_id, seedGroup_id]
          by_cases hsome : r.answer_id.isSome = true
          · have hseed : seedGroup r = appendAnswer (questionOf r) (answerOf r) := by
              rw [seedGroup, if_pos hsome]
            have hqr : (r.id == r.id && r.answer_id.isSome) = true := by
              simp [hsome]
            have hb : (rest.takeWhile (fun x => x.id == r.id)).filter
                (fun x => x.id == r.id && x.answer_id.isSome) =
                rest.takeWhile (fun x => x.id == r.id) := by
              rw [List.filter_eq_self]
              intro b hbmem
              have h1 := hblock b hbmem
              have h2 := (hPr b (hblockmem b hbmem) h1.symm).2
              simp [h1, h2]
            have ha : (rest.dropWhile (fun x => x.id == r.id)).filter
                (fun x => x.id == r.id && x.answer_id.isSome) = [] := by
              rw [List.filter_eq_nil_iff]
              intro a hamem
              have hna : a.id ≠ r.id := (Nat.ne_of_lt (haftergt a hamem)).symm
              simp [hna]
            have hrest : rest.filter (fun x => x.id == r.id && x.answer_id.isSome) =
                rest.takeWhile (fun x => x.id == r.id) := by
              conv_lhs => rw [← hsplit]
              rw [List.filter_append, hb, ha, List.append_nil]
            rw [List.filter_cons, if_pos hqr, hrest, List.map_cons]
            simp [hseed, appendAnswer, questionOf]
          · have hnone : r.answer_id.isSome = false := by
              simpa using hsome
            have hseed : seedGroup r = questionOf r := by
              rw [seedGroup]
              simp [hnone]
            have hbnil : rest.takeWhile (fun x => x.id == r.id) = [] := by
              cases hB : rest.takeWhile (fun x => x.id == r.id) with
              | nil => rfl
              | cons b t =>
                exfalso
                have hbm : b ∈ rest.takeWhile (fun x => x.id == r.id) := by
                  rw [hB]
                  exact List.mem_cons_self _ _
                have h1 := hblock b hbm
                have h2 := (hPr b (hblockmem b hbm) h1.symm).1
                rw [hnone] at h2
                exact Bool.false_ne_true h2
            have ha : (rest.dropWhile (fun x => x.id == r.id)).filter
                (fun x => x.id == r.id && x.answer_id.isSome) = [] := by
              rw [List.filter_eq_nil_iff]
              intro a hamem
              have hna : a.id ≠ r.id := (Nat.ne_of_lt (haftergt a hamem)).symm
              simp [hna]
            have hrest : rest.filter (fun x => x.id == r.id && x.answer_id.isSome) = [] := by
              conv_lhs => rw [← hsplit]
              rw [hbnil, List.nil_append, ha]
            have hqr : ¬ ((r.id == r.id && r.answer_id.isSome) = true) := by
              simp [hnone]
            rw [List.filter_cons, if_neg hqr, hrest]
            simp [hseed, hbnil, questionOf]
        · have hmain := ihB g hg'
          have hgid : r.id < g.id := by
            have h1 : g.id ∈ (list_questions_group
                (rest.dropWhile (fun x => x.id == r.id))).map (fun g => g.id) :=
              List.mem_map_of_mem _ hg'
            rw [ihA] at h1
            have h2 := mem_of_mem_firstSeenKeys _ g.id h1
            obtain ⟨x, hx, hxe⟩ := List.mem_map.mp h2
            exact hxe ▸ haftergt x hx
          have hne1 : (r.id == g.id) = false := by
            simpa using Nat.ne_of_lt hgid
          rw [hmain]
          congr 1
          symm
          have hqr : ¬ ((r.id == g.id && r.answer_id.isSome) = true) := by
            simp [hne1]
          rw [List.filter_cons, if_neg hqr]
          conv_lhs => rw [← hsplit]
          rw [List.filter_append]
          have hbf : (rest.takeWhile (fun x => x.id == r.id)).filter
              (fun x => x.id == g.id && x.answer_id.isSome) = [] := by
            rw [List.filter_eq_nil_iff]
            intro b hb
            have h1 := hblock b hb
            have h2 : b.id ≠ g.id := by
              rw [h1]
              exact Nat.ne_of_lt hgid
            simp [h2]
          rw [hbf, List.nil_append]

theorem firstSeenKeys_nodup_aux :
    ∀ (n : Nat) (l : List Nat), l.length ≤ n → (firstSeenKeys l).Nodup := by
  intro n
  induction n with
  | zero =>
    intro l hl
    rw [List.length_eq_zero.mp (Nat.le_zero.mp hl), firstSeenKeys_nil]
    exact List.nodup_nil
  | succ n ih =>
    intro l hl
    match l with
    | [] => rw [firstSeenKeys_nil]; exact List.nodup_nil
    | y :: ys =>
      rw [firstSeenKeys_cons]
      have hlen : (ys.filter (fun y' => y' ≠ y)).length ≤ n :=
        Nat.le_trans (List.length_filter_le _ _)
          (Nat.le_of_succ_le_succ (by simpa using hl))
      refine List.nodup_cons.mpr ⟨?_, ih _ hlen⟩
      intro hmem
      have h1 := mem_of_mem_firstSeenKeys _ y hmem
      have h2 := (List.mem_filter.mp h1).2
      simp at h2

theorem firstSeenKeys_nodup (l : List Nat) : (firstSeenKeys l).Nodup :=
  firstSeenKeys_nodup_aux l.length l (Nat.le_refl _)

theorem firstSeenKeys_toFinset (l : List Nat) :
    (firstSeenKeys l).toFinset = l.toFinset := by
  apply Finset.ext
  intro a
  simp only [List.mem_toFinset]
  exact ⟨fun h => mem_of_mem_firstSeenKeys l a h, fun h => mem_firstSeenKeys_of_mem l a h⟩

theorem firstSeenKeys_length (l : List Nat) :
    (firstSeenKeys l).length = l.toFinset.card := by
  rw [← firstSeenKeys_toFinset, List.toFinset_card_of_nodup (firstSeenKeys_nodup l)]

/-! ## Claim C1: correctness of the grouping pass -/

/-- C1: on a non-empty row sequence that is correctly pre-sorted (and shaped as
a left join flattens it: a null-child row is its parent's only row), the
grouping pass of `list_questions` yields exactly one group per distinct parent
key, in first-seen order, each group's answer list being precisely that
parent's non-null rows in original row order (so its length is the count of
such rows); grouping an empty sequence returns an empty sequence. -/
theorem list_questions_group_correct (rows : List JoinRow)
    (hsorted : rows.Pairwise (fun a b => a.id ≤ b.id))
    (hshape : rows.Pairwise (fun a b => a.id = b.id →
      a.answer_id.isSome = true ∧ b.answer_id.isSome = true)) :
    list_questions_group [] = ([] : List QuestionOut)
    ∧ (list_questions_group rows).length = (rows.map (fun x => x.id)).toFinset.card
    ∧ (list_questions_group rows).map (fun g => g.id) =
        firstSeenKeys (rows.map (fun x => x.id))
    ∧ ∀ g ∈ list_questions_group rows,
        g.answers = (rows.filter (fun x => x.id == g.id && x.answer_id.isSome)).map answerOf
        ∧ g.answers.length =
            (rows.filter (fun x => x.id == g.id && x.answer_id.isSome)).length := by
  obtain ⟨hA, hB⟩ := group_spec rows.length rows (Nat.le_refl _) hsorted hshape
  refine ⟨rfl, ?_, hA, ?_⟩
  · have hlen := congrArg List.length hA
    rw [List.length_map] at hlen
    rw [hlen, firstSeenKeys_length]
  · intro g hg
    refine ⟨hB g hg, ?_⟩
    rw [hB g hg, List.length_map]

/-- Example rows: question 1 with one answer, question 2 with no answers (the
left join emits one null-padded row), question 3 with two answers. -/
def exRows : List JoinRow :=
  [⟨1, "q1", some "easy", none, [], none, some 10, some "a1", some true, none, none, none, none⟩,
   ⟨2, "q2", none, none, [], none, none, none, none, none, none, none, none⟩,
   ⟨3, "q3", none, some "Bala Kanda", [], none, some 11, some "a2", some false, none, none, none, none⟩,
   ⟨3, "q3", none, some "Bala Kanda", [], none, some 12, some "a3", some true, none, none, none, none⟩]

theorem list_questions_group_correct_witness :
    (exRows.Pairwise (fun a b => a.id ≤ b.id)
      ∧ exRows.Pairwise (fun a b => a.id = b.id →
          a.answer_id.isSome = true ∧ b.answer_id.isSome = true))
    ∧ (list_questions_group [] = ([] : List QuestionOut)
      ∧ (list_questions_group exRows).length = (exRows.map (fun x => x.id)).toFinset.card
      ∧ (list_questions_group exRows).map (fun g => g.id) =
          firstSeenKeys (exRows.map (fun x => x.id))
      ∧ ∀ g ∈ list_questions_group exRows,
          g.answers = (exRows.filter (fun x => x.id == g.id && x.answer_id.isSome)).map answerOf
          ∧ g.answers.length =
              (exRows.filter (fun x => x.id == g.id && x.answer_id.isSome)).length) :=
  ⟨⟨by decide, by decide⟩, list_questions_group_correct exRows (by decide) (by decide)⟩

/-! ## Claim C2: absent-child handling -/

/-- C2: for every row whose child-side columns are null (a left-join parent
with zero children), the grouper emits a group for that parent whose answer
list is empty, and every group carrying that parent key has an empty answer
list — no placeholder answer with null-filled fields is synthesized. -/
theorem list_questions_group_no_placeholder (rows : List JoinRow)
    (hsorted : rows.Pairwise (fun a b => a.id ≤ b.id))
    (hshape : rows.Pairwise (fun a b => a.id = b.id →
      a.answer_id.isSome = true ∧ b.answer_id.isSome = true)) :
    ∀ r ∈ rows, r.answer_id = none →
      (∃ g ∈ list_questions_group rows, g.id = r.id ∧ g.answers = [])
      ∧ (∀ g ∈ list_questions_group rows, g.id = r.id → g.answers = []) := by
  obtain ⟨hA, hB⟩ := group_spec rows.length rows (Nat.le_refl _) hsorted hshape
  intro r hr hrnone
  have hsymm : Symmetric (fun a b : JoinRow => a.id = b.id →
      a.answer_id.isSome = true ∧ b.answer_id.isSome = true) := by
    intro a b h heq
    exact And.symm (h heq.symm)
  have hnull : ∀ x ∈ rows, x.id = r.id → x.answer_id.isSome = false := by
    intro x hx hxid
    by_cases hxr : x = r
    · rw [hxr, hrnone]; rfl
    · have := (hshape.forall hsymm hx hr hxr) hxid
      rw [hrnone] at this
      exact absurd this.2 (by simp)
  have hfilter : rows.filter (fun x => x.id == r.id && x.answer_id.isSome) = [] := by
    rw [List.filter_eq_nil_iff]
    intro x hx
    by_cases hxid : x.id = r.id
    · simp [hxid, hnull x hx hxid]
    · simp [hxid]
  have hempty : ∀ g ∈ list_questions_group rows, g.id = r.id → g.answers = [] := by
    intro g hg hgid
    rw [hB g hg, hgid, hfilter]
    rfl
  refine ⟨?_, hempty⟩
  have hmem1 : r.id ∈ rows.map (fun x => x.id) := List.mem_map_of_mem _ hr
  have hmem2 : r.id ∈ firstSeenKeys (rows.map (fun x => x.id)) :=
    mem_firstSeenKeys_of_mem _ r.id hmem1
  rw [← hA] at hmem2
  obtain ⟨g, hg, hgid⟩ := List.mem_map.mp hmem2
  exact ⟨g, hg, hgid, hempty g hg hgid⟩

theorem list_questions_group_no_placeholder_witness :
    (exRows.Pairwise (fun a b => a.id ≤ b.id)
      ∧ exRows.Pairwise (fun a b => a.id = b.id →
          a.answer_id.isSome = true ∧ b.answer_id.isSome = true)
      ∧ (⟨2, "q2", none, none, [], none, none, none, none, none, none, none,
          none⟩ : JoinRow) ∈ exRows
      ∧ (⟨2, "q2", none, none, [], none, none, none, none, none, none, none,
          none⟩ : JoinRow).answer_id = none)
    ∧ ((∃ g ∈ list_questions_group exRows,
          g.id = (⟨2, "q2", none, none, [], none, none, none, none, none, none,
            none, none⟩ : JoinRow).id ∧ g.answers = [])
      ∧ (∀ g ∈ list_questions_group exRows,
          g.id = (⟨2, "q2", none, none, [], none, none, none, none, none, none,
            none, none⟩ : JoinRow).id → g.answers = [])) :=
  ⟨⟨by decide, by decide, by decide, rfl⟩,
    list_questions_group_no_placeholder exRows (by decide) (by decide)
      ⟨2, "q2", none, none, [], none, none, none, none, none, none, none, none⟩
      (by decide) rfl⟩

/-! ## Sorting by a Nat key (ORDER BY semantics) -/

def insertSorted {α : Type} (key : α → Nat) (x : α) : List α → List α
  | [] => [x]
  | y :: ys => if key x ≤ key y then x :: y :: ys else y :: insertSorted key x ys

/-- Insertion sort on a `Nat` key; models SQL `ORDER BY` on that column. -/
def sortOn {α : Type} (key : α → Nat) : List α → List α
  | [] => []
  | x :: xs => insertSorted key x (sortOn key xs)

theorem insertSorted_perm {α : Type} (key : α → Nat) (x : α) :
    ∀ (l : List α), (insertSorted key x l).Perm (x :: l) := by
  intro l
  induction l with
  | nil => rw [insertSorted]
  | cons y ys ih =>
    rw [insertSorted]
    by_cases h : key x ≤ key y
    · rw [if_pos h]
    · rw [if_neg h]
      exact List.Perm.trans (List.Perm.cons y ih) (List.Perm.swap x y ys)

theorem sortOn_perm {α : Type} (key : α → Nat) :
    ∀ (l : List α), (sortOn key l).Perm l := by
  intro l
  induction l with
  | nil => rw [sortOn]
  | cons x xs ih =>
    rw [sortOn]
    exact List.Perm.trans (insertSorted_perm key x (sortOn key xs)) (List.Perm.cons x ih)

theorem sortOn_length {α : Type} (key : α → Nat) (l : List α) :
    (sortOn key l).length = l.length :=
  (sortOn_perm key l).length_eq

theorem mem_insertSorted {α : Type} (key : α → Nat) (x : α) (l : List α) (z : α) :
    z ∈ insertSorted key x l ↔ z = x ∨ z ∈ l := by
  rw [(insertSorted_perm key x l).mem_iff, List.mem_cons]

theorem insertSorted_pairwise {α : Type} (key : α → Nat) (x : α) :
    ∀ (l : List α), l.Pairwise (fun a b => key a ≤ key b) →
    (insertSorted key x l).Pairwise (fun a b => key a ≤ key b) := by
  intro l
  induction l with
  | nil =>
    intro _
    rw [insertSorted]
    exact List.pairwise_singleton _ _
  | cons y ys ih =>
    intro h
    obtain ⟨hy, hys⟩ := List.pairwise_cons.mp h
    rw [insertSorted]
    by_cases hxy : key x ≤ key y
    · rw [if_pos hxy]
      refine List.pairwise_cons.mpr ⟨?_, h⟩
      intro z hz
      rcases List.mem_cons.mp hz with rfl | hz'
      · exact hxy
      · exact Nat.le_trans hxy (hy z hz')
    · rw [if_neg hxy]
      refine List.pairwise_cons.mpr ⟨?_, ih hys⟩
      intro z hz
      rcases (mem_insertSorted key x ys z).mp hz with rfl | hz'
      · exact Nat.le_of_not_le hxy
      · exact hy z hz'

theorem sortOn_pairwise {α : Type} (key : α → Nat) :
    ∀ (l : List α), (sortOn key l).Pairwise (fun a b => key a ≤ key b) := by
  intro l
  induction l with
  | nil => rw [sortOn]; exact List.Pairwise.nil
  | cons x xs ih =>
    rw [sortOn]
    exact insertSorted_pairwise key x (sortOn key xs) ih

/-! ## The database tables and the two-query paginated fetch (C3)

A `DB` value is the abstract state of the two tables created in database.py
(plus the columns added by migrations: `information`, translation columns).
`qid` / `aid` are the serial primary keys, assumed `Nodup` where a theorem
needs it. -/

structure QuestionRec where
  qid : Nat
  question : String
  difficulty : Option String
  kanda : Option String
  tags : List String
  information : Option String
  question_hindi : Option String
  question_telugu : Option String
deriving DecidableEq, Repr

structure AnswerRec where
  aid : Nat
  question_id : Nat
  answer : String
  is_correct : Bool
  answer_hindi : Option String
  answer_telugu : Option String
deriving DecidableEq, Repr

structure DB where
  questions : List QuestionRec
  answers : List AnswerRec
deriving DecidableEq, Repr

/-- The optional `WHERE difficulty = '{difficulty}'` predicate of the subquery
(line 336-337); SQL `NULL` never compares equal. -/
def difficultyMatch (d : Option String) (q : QuestionRec) : Bool :=
  match d with
  | none => true
  | some s => q.difficulty == some s

/-- The parent-only subquery (lines 332-338): `SELECT id FROM questions
[WHERE difficulty = ...] ORDER BY id LIMIT limit OFFSET offset`. -/
def subqueryIds (db : DB) (limit offset : Nat) (difficulty : Option String) :
    List Nat :=
  ((sortOn (fun i => i)
    ((db.questions.filter (difficultyMatch difficulty)).map (fun q => q.qid))).drop
      offset).take limit

/-- One joined row for a question and one of its answers. -/
def joinRow (q : QuestionRec) (a : AnswerRec) : JoinRow :=
  ⟨q.qid, q.question, q.difficulty, q.kanda, q.tags, q.information,
   some a.aid, some a.answer, some a.is_correct,
   q.question_hindi, q.question_telugu, a.answer_hindi, a.answer_telugu⟩

/-- The null-padded row a LEFT JOIN emits for a question with no answers. -/
def nullJoinRow (q : QuestionRec) : JoinRow :=
  ⟨q.qid, q.question, q.difficulty, q.kanda, q.tags, q.information,
   none, none, none, q.question_hindi, q.question_telugu, none, none⟩

/-- One question's slice of the join result, ordered by answer id
(`ORDER BY questions.id, answers.id`, line 347). -/
def questionRows (ans : List AnswerRec) (q : QuestionRec) : List JoinRow :=
  match sortOn (fun a => a.aid) (ans.filter (fun a => a.question_id == q.qid)) with
  | [] => [nullJoinRow q]
  | c :: cs => (c :: cs).map (joinRow q)

/-- The rows of the main query (lines 340-353): the left join restricted to
the subquery's ids, ordered by `(questions.id, answers.id)`.  Since
`questions.id` is the primary key, each selected id resolves to its unique
record. -/
def queryRows (db : DB) (limit offset : Nat) (difficulty : Option String) :
    List JoinRow :=
  ((subqueryIds db limit offset difficulty).filterMap
    (fun i => db.questions.find? (fun q => q.qid == i))).flatMap
      (questionRows db.answers)

/-- `list_questions` (lines 318-384): run the two queries, then the grouping
pass. -/
def list_questions (db : DB) (limit offset : Nat) (difficulty : Option String) :
    List QuestionOut :=
  list_questions_group (queryRows db limit offset difficulty)

/-- The group the fetch is expected to produce for one question record. -/
def groupOfQuestion (ans : List AnswerRec) (q : QuestionRec) : QuestionOut :=
  ⟨q.qid, q.question, q.difficulty, q.kanda, q.tags, q.question_telugu,
   q.question_hindi, q.information,
   (sortOn (fun a => a.aid) (ans.filter (fun a => a.question_id == q.qid))).map
     (fun a => ⟨some a.aid, some a.answer, some a.is_correct,
                a.answer_hindi, a.answer_telugu⟩)⟩

theorem questionRows_id (ans : List AnswerRec) (q : QuestionRec) :
    ∀ x ∈ questionRows ans q, x.id = q.qid := by
  intro x hx
  rw [questionRows] at hx
  split at hx
  · rcases List.mem_singleton.mp hx with rfl
    rfl
  · obtain ⟨a, _, rfl⟩ := List.mem_map.mp hx
    rfl

theorem flatMap_rows_id (ans : List AnswerRec) (qs : List QuestionRec) :
    ∀ x ∈ qs.flatMap (questionRows ans), ∃ q' ∈ qs, x.id = q'.qid := by
  intro x hx
  obtain ⟨q', hq', hx'⟩ := List.mem_flatMap.mp hx
  exact ⟨q', hq', questionRows_id ans q' x hx'⟩

theorem rest_takeWhile_nil (k : Nat) (rest : List JoinRow)
    (h : ∀ x ∈ rest, x.id ≠ k) :
    rest.takeWhile (fun x => x.id == k) = [] := by
  cases rest with
  | nil => rfl
  | cons x t =>
    have hx := h x (List.mem_cons_self _ _)
    rw [List.takeWhile_cons, if_neg (by simpa using hx)]

theorem rest_dropWhile_self (k : Nat) (rest : List JoinRow)
    (h : ∀ x ∈ rest, x.id ≠ k) :
    rest.dropWhile (fun x => x.id == k) = rest := by
  cases rest with
  | nil => rfl
  | cons x t =>
    have hx := h x (List.mem_cons_self _ _)
    rw [List.dropWhile_cons, if_neg (by simpa using hx)]

/-- Grouping the concatenated per-question row slices of strictly increasing
question ids yields exactly one expected group per question, in order. -/
theorem group_flatMap (ans : List AnswerRec) :
    ∀ (qs : List QuestionRec), qs.Pairwise (fun a b => a.qid < b.qid) →
    list_questions_group (qs.flatMap (questionRows ans)) =
      qs.map (groupOfQuestion ans) := by
  intro qs
  induction qs with
  | nil => intro _; rfl
  | cons q qs' ih =>
    intro hpw
    have hlt : ∀ q' ∈ qs', q.qid < q'.qid := (List.pairwise_cons.mp hpw).1
    have hpw' : qs'.Pairwise (fun a b => a.qid < b.qid) :=
      (List.pairwise_cons.mp hpw).2
    have hrest_ne : ∀ x ∈ qs'.flatMap (questionRows ans), x.id ≠ q.qid := by
      intro x hx
      obtain ⟨q', hq', hid⟩ := flatMap_rows_id ans qs' x hx
      rw [hid]
      exact Nat.ne_of_gt (hlt q' hq')
    rw [List.flatMap_cons]
    cases hch : sortOn (fun a => a.aid)
        (ans.filter (fun a => a.question_id == q.qid)) with
    | nil =>
      have hqr : questionRows ans q = [nullJoinRow q] := by
        rw [questionRows, hch]
      rw [hqr, List.cons_append, List.nil_append]
      have hpeel := groupLoop_eq (qs'.flatMap (questionRows ans))
        (nullJoinRow q) (seedGroup (nullJoinRow q))
      have htake : (qs'.flatMap (questionRows ans)).takeWhile
          (fun x => x.id == (nullJoinRow q).id) = [] :=
        rest_takeWhile_nil _ _ hrest_ne
      have hdrop : (qs'.flatMap (questionRows ans)).dropWhile
          (fun x => x.id == (nullJoinRow q).id) = qs'.flatMap (questionRows ans) :=
        rest_dropWhile_self _ _ hrest_ne
      show groupLoop (nullJoinRow q) (seedGroup (nullJoinRow q)) []
          (qs'.flatMap (questionRows ans)) = _
      rw [hpeel, htake, hdrop, ih hpw', List.map_cons]
      congr 1
      simp [seedGroup, nullJoinRow, questionOf, groupOfQuestion, hch,
        withAnswers_answers]
    | cons c cs =>
      have hqr : questionRows ans q = joinRow q c :: cs.map (joinRow q) := by
        rw [questionRows, hch]
        rfl
      rw [hqr, List.cons_append]
      have hpeel := groupLoop_eq (cs.map (joinRow q) ++ qs'.flatMap (questionRows ans))
        (joinRow q c) (seedGroup (joinRow q c))
      have hcs_all : ∀ x ∈ cs.map (joinRow q),
          ((fun x : JoinRow => x.id == (joinRow q c).id) x) = true := by
        intro x hx
        obtain ⟨a, _, rfl⟩ := List.mem_map.mp hx
        simp [joinRow]
      have htake : (cs.map (joinRow q) ++ qs'.flatMap (questionRows ans)).takeWhile
          (fun x => x.id == (joinRow q c).id) = cs.map (joinRow q) := by
        rw [takeWhile_append_all _ _ _ hcs_all,
          rest_takeWhile_nil ((joinRow q c).id) (qs'.flatMap (questionRows ans))
            (fun x hx => hrest_ne x hx),
          List.append_nil]
      have hdrop : (cs.map (joinRow q) ++ qs'.flatMap (questionRows ans)).dropWhile
          (fun x => x.id == (joinRow q c).id) = qs'.flatMap (questionRows ans) := by
        rw [dropWhile_append_all _ _ _ hcs_all,
          rest_dropWhile_self ((joinRow q c).id) (qs'.flatMap (questionRows ans))
            (fun x hx => hrest_ne x hx)]
      show groupLoop (joinRow q c) (seedGroup (joinRow q c)) []
          (cs.map (joinRow q) ++ qs'.flatMap (questionRows ans)) = _
      rw [hpeel, htake, hdrop, ih hpw', List.map_cons]
      congr 1
      have hsome : (joinRow q c).answer_id.isSome = true := rfl
      simp only [seedGroup, hsome, if_true, withAnswers_answers,
        appendAnswer, questionOf, joinRow, groupOfQuestion, hch,
        List.map_cons, List.map_map]
      rfl

theorem selected_map_qid (qs : List QuestionRec) :
    ∀ (ids : List Nat), (∀ i ∈ ids, ∃ q ∈ qs, q.qid = i) →
    (ids.filterMap (fun i => qs.find? (fun q => q.qid == i))).map (fun q => q.qid)
      = ids := by
  intro ids
  induction ids with
  | nil => intro _; rfl
  | cons i is ih =>
    intro h
    obtain ⟨q0, hq0, hq0i⟩ := h i (List.mem_cons_self _ _)
    have hfind : (qs.find? (fun q => q.qid == i)).isSome := by
      rw [List.find?_isSome]
      exact ⟨q0, hq0, by simp [hq0i]⟩
    obtain ⟨r, hr⟩ := Option.isSome_iff_exists.mp hfind
    have hrid : r.qid = i := by simpa using List.find?_some hr
    have hstep : (i :: is).filterMap (fun j => qs.find? (fun q => q.qid == j)) =
        r :: is.filterMap (fun j => qs.find? (fun q => q.qid == j)) :=
      List.filterMap_cons_some hr
    rw [hstep, List.map_cons, hrid,
      ih (fun j hj => h j (List.mem_cons_of_mem _ hj))]

theorem subqueryIds_mem (db : DB) (limit offset : Nat) (difficulty : Option String) :
    ∀ i ∈ subqueryIds db limit offset difficulty, ∃ q ∈ db.questions, q.qid = i := by
  intro i hi
  rw [subqueryIds] at hi
  have h1 : i ∈ sortOn (fun i => i)
      ((db.questions.filter (difficultyMatch difficulty)).map (fun q => q.qid)) :=
    (List.drop_sublist _ _).mem ((List.take_sublist _ _).mem hi)
  have h2 : i ∈ (db.questions.filter (difficultyMatch difficulty)).map
      (fun q => q.qid) := (sortOn_perm _ _).mem_iff.mp h1
  obtain ⟨q, hq, rfl⟩ := List.mem_map.mp h2
  exact ⟨q, List.mem_of_mem_filter hq, rfl⟩

theorem subqueryIds_sorted (db : DB) (limit offset : Nat) (difficulty : Option String) :
    (subqueryIds db limit offset difficulty).Pairwise (fun a b => a ≤ b) := by
  rw [subqueryIds]
  exact (sortOn_pairwise (fun i => i) _).sublist
    ((List.take_sublist _ _).trans (List.drop_sublist _ _))

theorem subqueryIds_nodup (db : DB) (limit offset : Nat) (difficulty : Option String)
    (hq : (db.questions.map (fun q => q.qid)).Nodup) :
    (subqueryIds db limit offset difficulty).Nodup := by
  rw [subqueryIds]
  have hbase : ((db.questions.filter (difficultyMatch difficulty)).map
      (fun q => q.qid)).Nodup :=
    List.Nodup.sublist ((List.filter_sublist _).map _) hq
  have hsorted : (sortOn (fun i => i)
      ((db.questions.filter (difficultyMatch difficulty)).map (fun q => q.qid))).Nodup :=
    (sortOn_perm _ _).nodup_iff.mpr hbase
  exact List.Nodup.sublist
    ((List.take_sublist _ _).trans (List.drop_sublist _ _)) hsorted

/-! ## Claim C3: the paginated fetch protocol -/

/-- C3: limit/offset act on the parent-only id subquery, so the fetch returns
`min limit (matching - offset)` parent groups — never more than `limit` — each
carrying its complete answer set regardless of fan-out, and an offset at or
beyond the matching parent count yields an empty result (not an error). -/
theorem list_questions_pagination (db : DB) (limit offset : Nat)
    (difficulty : Option String)
    (hq : (db.questions.map (fun q => q.qid)).Nodup) :
    (list_questions db limit offset difficulty).length =
      min limit ((db.questions.filter (difficultyMatch difficulty)).length - offset)
    ∧ (list_questions db limit offset difficulty).length ≤ limit
    ∧ (∀ g ∈ list_questions db limit offset difficulty,
        g.answers.length =
          (db.answers.filter (fun a => a.question_id == g.id)).length)
    ∧ ((db.questions.filter (difficultyMatch difficulty)).length ≤ offset →
        list_questions db limit offset difficulty = []) := by
  have hidsmem := subqueryIds_mem db limit offset difficulty
  have hmap : ((subqueryIds db limit offset difficulty).filterMap
      (fun i => db.questions.find? (fun q => q.qid == i))).map (fun q => q.qid)
      = subqueryIds db limit offset difficulty :=
    selected_map_qid db.questions _ hidsmem
  have hlt_ids : (subqueryIds db limit offset difficulty).Pairwise
      (fun a b => a < b) :=
    ((subqueryIds_sorted db limit offset difficulty).and
      (subqueryIds_nodup db limit offset difficulty hq)).imp
      (fun h => lt_of_le_of_ne h.1 h.2)
  have hsel_pw : ((subqueryIds db limit offset difficulty).filterMap
      (fun i => db.questions.find? (fun q => q.qid == i))).Pairwise
      (fun a b => a.qid < b.qid) := by
    apply List.pairwise_map.mp
    rw [hmap]
    exact hlt_ids
  have hout : list_questions db limit offset difficulty =
      ((subqueryIds db limit offset difficulty).filterMap
        (fun i => db.questions.find? (fun q => q.qid == i))).map
          (groupOfQuestion db.answers) := by
    rw [list_questions, queryRows]
    exact group_flatMap db.answers _ hsel_pw
  have hsel_len : ((subqueryIds db limit offset difficulty).filterMap
      (fun i => db.questions.find? (fun q => q.qid == i))).length =
      (subqueryIds db limit offset difficulty).length := by
    conv_rhs => rw [← hmap]
    rw [List.length_map]
  have hs_len : (sortOn (fun i => i)
      ((db.questions.filter (difficultyMatch difficulty)).map
        (fun q => q.qid))).length =
      (db.questions.filter (difficultyMatch difficulty)).length := by
    rw [sortOn_length, List.length_map]
  have hids_len : (subqueryIds db limit offset difficulty).length =
      min limit ((db.questions.filter (difficultyMatch difficulty)).length - offset) := by
    rw [subqueryIds, List.length_take, List.length_drop, hs_len]
  have hout_len : (list_questions db limit offset difficulty).length =
      min limit ((db.questions.filter (difficultyMatch difficulty)).length - offset) := by
    rw [hout, List.length_map, hsel_len, hids_len]
  refine ⟨hout_len, ?_, ?_, ?_⟩
  · rw [hout_len]
    exact Nat.min_le_left _ _
  · intro g hg
    rw [hout] at hg
    obtain ⟨q, _, rfl⟩ := List.mem_map.mp hg
    show ((sortOn (fun a => a.aid)
        (db.answers.filter (fun a => a.question_id == q.qid))).map
          (fun a => (⟨some a.aid, some a.answer, some a.is_correct,
            a.answer_hindi, a.answer_telugu⟩ : AnswerOut))).length = _
    rw [List.length_map, sortOn_length]
    rfl
  · intro hoff
    have hids_nil : subqueryIds db limit offset difficulty = [] := by
      rw [subqueryIds, List.drop_eq_nil_of_le, List.take_nil]
      rw [hs_len]
      exact hoff
    rw [hout, hids_nil]
    rfl

/-- Example database: five questions; question 2 has three answers, the
others one each (the spec's fan-out example). -/
def exDB : DB :=
  ⟨[⟨1, "k1", none, none, [], none, none, none⟩,
    ⟨2, "k2", none, none, [], none, none, none⟩,
    ⟨3, "k3", none, none, [], none, none, none⟩,
    ⟨4, "k4", none, none, [], none, none, none⟩,
    ⟨5, "k5", none, none, [], none, none, none⟩],
   [⟨101, 1, "a", false, none, none⟩,
    ⟨102, 2, "b", true, none, none⟩,
    ⟨103, 2, "c", false, none, none⟩,
    ⟨104, 2, "d", false, none, none⟩,
    ⟨105, 3, "e", false, none, none⟩,
    ⟨106, 4, "f", false, none, none⟩,
    ⟨107, 5, "g", false, none, none⟩]⟩

theorem list_questions_pagination_witness :
    ((exDB.questions.map (fun q => q.qid)).Nodup)
    ∧ ((list_questions exDB 2 0 none).length =
        min 2 ((exDB.questions.filter (difficultyMatch none)).length - 0)
      ∧ (list_questions exDB 2 0 none).length ≤ 2
      ∧ (∀ g ∈ list_questions exDB 2 0 none,
          g.answers.length =
            (exDB.answers.filter (fun a => a.question_id == g.id)).length)
      ∧ ((exDB.questions.filter (difficultyMatch none)).length ≤ 0 →
          list_questions exDB 2 0 none = [])) :=
  ⟨by decide, list_questions_pagination exDB 2 0 none (by decide)⟩

/-! ## Resilient session: cached connection and retry decorator (C4, C9) -/

/-- The process-wide connection cache (the `connection` global, database.py
line 85), abstracted as an optional handle id plus a generation counter so
distinct handles are distinguishable. -/
structure ConnState where
  connection : Option Nat
  nextId : Nat
deriving DecidableEq, Repr

/-- `get_database_connection` (lines 88-117).  `connectOk` abstracts whether
`psycopg2.connect` succeeds; on failure the `OperationalError` is re-raised
and, because the Python assignment to the global never executes, the cached
handle is left untouched. -/
def get_database_connection (connectOk : Bool) (force : Bool) (s : ConnState) :
    Except PGError Nat × ConnState :=
  match s.connection, force with
  | some c, false => (.ok c, s)
  | _, _ =>
    if connectOk then (.ok s.nextId, ⟨some s.nextId, s.nextId + 1⟩)
    else (.error .operationalError, s)

/-! ## Claim C9: failed reconstruction preserves the cached handle -/

/-- C9: when construction of a new connection fails, the whole cached state —
in particular the cached handle, present or absent — is unchanged; when
construction succeeds, the cached handle is replaced exactly when it was
absent or the recreation was forced, and is otherwise returned as-is. -/
theorem get_database_connection_cache_preserved (s : ConnState) (force : Bool) :
    ((get_database_connection false force s).2 = s)
    ∧ ((get_database_connection true force s).2.connection =
        if s.connection = none ∨ force = true then some s.nextId
        else s.connection) := by
  obtain ⟨conn, nid⟩ := s
  cases conn <;> cases force <;> simp [get_database_connection]

/-- The outcome trace of one call through the retry decorator: the final
result, how many times the wrapped operation ran, and how many forced
reconnections happened. -/
structure RetryTrace (α : Type) where
  result : Except PGError α
  opCalls : Nat
  reconnects : Nat
deriving Repr

/-- `retry_with_new_connection` (lines 120-133), abstracted over the wrapped
operation's outcome per attempt (`op 0` the first execution, `op 1` the
retry) and over whether the forced `get_database_connection(force=True)`
succeeds (`reconnectOk`).  Only `psycopg2.InterfaceError` is caught; after
one forced reconnection the operation is re-run once, with no further
handler around it. -/
def retry_with_new_connection {α : Type} (reconnectOk : Bool)
    (op : Nat → Except PGError α) : RetryTrace α :=
  match op 0 with
  | .ok v => ⟨.ok v, 1, 0⟩
  | .error e =>
    if e = .interfaceError then
      if reconnectOk then
        match op 1 with
        | .ok v => ⟨.ok v, 2, 1⟩
        | .error e2 => ⟨.error e2, 2, 1⟩
      else ⟨.error .operationalError, 1, 1⟩
    else ⟨.error e, 1, 0⟩

/-! ## Claim C4: the retry protocol -/

/-- C4: a first transport (`InterfaceError`) failure triggers exactly one
forced reconnection and exactly one re-execution, whose outcome — including a
second consecutive transport failure — propagates as-is with no further
retry; any non-transport error propagates untouched, with no reconnect and no
retry; a success on the first attempt is returned directly. -/
theorem retry_with_new_connection_protocol {α : Type}
    (op : Nat → Except PGError α) :
    (op 0 = Except.error PGError.interfaceError →
      (retry_with_new_connection true op).reconnects = 1
      ∧ (retry_with_new_connection true op).opCalls = 2
      ∧ (retry_with_new_connection true op).result = op 1)
    ∧ (op 0 = Except.error PGError.interfaceError →
        op 1 = Except.error PGError.interfaceError →
        retry_with_new_connection true op =
          ⟨Except.error PGError.interfaceError, 2, 1⟩)
    ∧ (∀ e, op 0 = Except.error e → e ≠ PGError.interfaceError →
        ∀ b, retry_with_new_connection b op = ⟨Except.error e, 1, 0⟩)
    ∧ (∀ v, op 0 = Except.ok v →
        ∀ b, retry_with_new_connection b op = ⟨Except.ok v, 1, 0⟩) := by
  refine ⟨?_, ?_, ?_, ?_⟩
  · intro h0
    cases h1 : op 1 <;> simp [retry_with_new_connection, h0, h1]
  · intro h0 h1
    simp [retry_with_new_connection, h0, h1]
  · intro e h0 hne b
    simp [retry_with_new_connection, h0, hne]
  · intro v h0 b
    simp [retry_with_new_connection, h0]

/-- A wrapped operation that fails with a transport error once and succeeds
on the retry. -/
def exOpTransient : Nat → Except PGError Nat := fun n =>
  if n = 0 then Except.error PGError.interfaceError else Except.ok 7

theorem retry_with_new_connection_protocol_witness :
    (exOpTransient 0 = Except.error PGError.interfaceError)
    ∧ ((retry_with_new_connection true exOpTransient).reconnects = 1
      ∧ (retry_with_new_connection true exOpTransient).opCalls = 2
      ∧ (retry_with_new_connection true exOpTransient).result = exOpTransient 1) :=
  ⟨rfl, (retry_with_new_connection_protocol exOpTransient).1 rfl⟩

/-! ## Fixed-window rate limiter over a Redis-like store (C5, C7) -/

inductive RedisError where
  | connectionError
deriving DecidableEq, Repr

/-- A Redis-like keyed counter store: each key holds a counter value and an
optional TTL (`none` = no expiry).  `reachable` abstracts whether the backing
store is up; every operation on an unreachable store raises. -/
structure RLStore where
  reachable : Bool
  entries : String → Option (Nat × Option Nat)

/-- `connection.get(identifier)`. -/
def rget (s : RLStore) (k : String) : Except RedisError (Option Nat) :=
  if s.reachable then Except.ok ((s.entries k).map (fun e => e.1))
  else Except.error RedisError.connectionError

/-- `connection.set(identifier, v)`: stores the value and clears any TTL. -/
def rset (s : RLStore) (k : String) (v : Nat) : Except RedisError RLStore :=
  if s.reachable then
    Except.ok { s with entries := fun j => if j = k then some (v, none)
                                           else s.entries j }
  else Except.error RedisError.connectionError

/-- `connection.expire(identifier, t)`: sets the TTL of an existing key. -/
def rexpire (s : RLStore) (k : String) (t : Nat) : Except RedisError RLStore :=
  if s.reachable then
    Except.ok { s with entries := fun j =>
      (if j = k then (s.entries k).map (fun e => (e.1, some t))
       else s.entries j) }
  else Except.error RedisError.connectionError

/-- `connection.incr(identifier)`: increments the counter leaving the TTL
untouched (a missing key starts at 1 with no TTL). -/
def rincr (s : RLStore) (k : String) : Except RedisError RLStore :=
  if s.reachable then
    Except.ok { s with entries := fun j =>
      (if j = k then
        (match s.entries k with
         | none => some (1, none)
         | some e => some (e.1 + 1, e.2))
       else s.entries j) }
  else Except.error RedisError.connectionError

namespace RateLimiter

/-- `RateLimiter.INTERVAL` (rate_limit.py line 30). -/
def INTERVAL : Nat := 60

/-- `RateLimiter.QUOTA` (rate_limit.py line 31). -/
def QUOTA : Nat := 5

/-- `RateLimiter._first_request` (lines 38-40): set the counter to 1 then set
the key's expiry to the window constant. -/
def first_request (s : RLStore) (k : String) : Except RedisError RLStore :=
  match rset s k 1 with
  | Except.error e => Except.error e
  | Except.ok s1 => rexpire s1 k INTERVAL

/-- `RateLimiter._increment` (lines 42-43). -/
def increment (s : RLStore) (k : String) : Except RedisError RLStore :=
  rincr s k

/-- `RateLimiter.check` (lines 45-69): returns whether the request is
admitted, threading the store; any store error propagates uncaught. -/
def check (s : RLStore) (k : String) : Except RedisError (Bool × RLStore) :=
  match rget s k with
  | Except.error e => Except.error e
  | Except.ok none =>
    match first_request s k with
    | Except.error e => Except.error e
    | Except.ok s1 => Except.ok (true, s1)
  | Except.ok (some c) =>
    if c < QUOTA then
      match increment s k with
      | Except.error e => Except.error e
      | Except.ok s1 => Except.ok (true, s1)
    else Except.ok (false, s)

end RateLimiter

/-- Simulated TTL lapse: the backing store drops the expired key. -/
def expireKey (s : RLStore) (k : String) : RLStore :=
  { s with entries := fun j => if j = k then none else s.entries j }

/-- Whether a check outcome admitted the request (none when it errored). -/
def checkAdmitted (r : Except RedisError (Bool × RLStore)) : Option Bool :=
  match r with
  | Except.ok p => some p.1
  | Except.error _ => none

/-- The stored (counter, ttl) entry for a key after a check outcome. -/
def checkEntry (r : Except RedisError (Bool × RLStore)) (k : String) :
    Option (Nat × Option Nat) :=
  match r with
  | Except.ok p => p.2.entries k
  | Except.error _ => none

/-! ## Claim C5: the fixed-window protocol -/

/-- C5: on a reachable store, a fresh identifier is admitted with counter 1
and expiry set to the window constant; while the counter is below QUOTA the
check admits and increments without touching the expiry; once the counter has
reached QUOTA the check rejects leaving the store unchanged; after the key
expires the cycle restarts at counter 1. -/
theorem rate_limiter_check_protocol (s : RLStore) (k : String)
    (hreach : s.reachable = true) :
    (s.entries k = none →
      checkAdmitted (RateLimiter.check s k) = some true
      ∧ checkEntry (RateLimiter.check s k) k =
          some (1, some RateLimiter.INTERVAL))
    ∧ (∀ c t, s.entries k = some (c, t) → c < RateLimiter.QUOTA →
      checkAdmitted (RateLimiter.check s k) = some true
      ∧ checkEntry (RateLimiter.check s k) k = some (c + 1, t))
    ∧ (∀ c t, s.entries k = some (c, t) → ¬ c < RateLimiter.QUOTA →
      RateLimiter.check s k = Except.ok (false, s))
    ∧ (checkAdmitted (RateLimiter.check (expireKey s k) k) = some true
      ∧ checkEntry (RateLimiter.check (expireKey s k) k) k =
          some (1, some RateLimiter.INTERVAL)) := by
  refine ⟨?_, ?_, ?_, ?_⟩
  · intro h
    constructor <;>
      simp [RateLimiter.check, RateLimiter.first_request, RateLimiter.increment,
        rget, rset, rexpire, rincr, hreach, h, checkAdmitted, checkEntry]
  · intro c t h hc
    constructor <;>
      simp [RateLimiter.check, RateLimiter.first_request, RateLimiter.increment,
        rget, rset, rexpire, rincr, hreach, h, hc, checkAdmitted, checkEntry]
  · intro c t h hc
    simp [RateLimiter.check, RateLimiter.increment, rget, rincr, hreach, h, hc]
  · constructor <;>
      simp [RateLimiter.check, RateLimiter.first_request, expireKey,
        rget, rset, rexpire, hreach, checkAdmitted, checkEntry]

theorem rate_limiter_check_protocol_witness :
    ((⟨true, fun _ => none⟩ : RLStore).reachable = true
      ∧ (⟨true, fun _ => none⟩ : RLStore).entries "ip" = none)
    ∧ (checkAdmitted (RateLimiter.check ⟨true, fun _ => none⟩ "ip") = some true
      ∧ checkEntry (RateLimiter.check ⟨true, fun _ => none⟩ "ip") "ip" =
          some (1, some RateLimiter.INTERVAL)) :=
  ⟨⟨rfl, rfl⟩,
    (rate_limiter_check_protocol ⟨true, fun _ => none⟩ "ip" rfl).1 rfl⟩

/-! ## Claim C7: store unavailability propagates -/

/-- C7: on an unreachable store, `check` propagates the connection error to
the caller; it returns no admit/reject verdict at all. -/
theorem rate_limiter_check_propagates (s : RLStore) (k : String)
    (hdown : s.reachable = false) :
    RateLimiter.check s k = Except.error RedisError.connectionError := by
  simp [RateLimiter.check, rget, hdown]

theorem rate_limiter_check_propagates_witness :
    ((⟨false, fun _ => none⟩ : RLStore).reachable = false)
    ∧ RateLimiter.check ⟨false, fun _ => none⟩ "ip" =
        Except.error RedisError.connectionError :=
  ⟨rfl, rate_limiter_check_propagates ⟨false, fun _ => none⟩ "ip" rfl⟩

/-! ## Claim C10: the rate-limit gate of the two endpoints -/

/-- The rate-limit prologue of `get_questions` (main.py lines 127-133): read
`x-forwarded-for`; only if present construct a `RateLimiter` and call
`check`; raise 429 when the check denies.  The result carries whether the
request passed the gate, the store after the gate, and how many times the
limiter was consulted. -/
def get_questions_rate_gate (xff : Option String) (s : RLStore) :
    Except RedisError (Bool × RLStore × Nat) :=
  match xff with
  | none => Except.ok (true, s, 0)
  | some ip =>
    match RateLimiter.check s ip with
    | Except.error e => Except.error e
    | Except.ok p => Except.ok (p.1, p.2, 1)

/-- The identical rate-limit prologue of `_health` (main.py lines 64-71). -/
def health_rate_gate (xff : Option String) (s : RLStore) :
    Except RedisError (Bool × RLStore × Nat) :=
  match xff with
  | none => Except.ok (true, s, 0)
  | some ip =>
    match RateLimiter.check s ip with
    | Except.error e => Except.error e
    | Except.ok p => Except.ok (p.1, p.2, 1)

/-- C10: when a request to `get_questions` or `_health` carries no
`x-forwarded-for` header, the limiter is consulted zero times, the store —
whatever counters it holds from prior requests — is untouched, and the
request is admitted. -/
theorem rate_gate_skips_without_header (s : RLStore) :
    get_questions_rate_gate none s = Except.ok (true, s, 0)
    ∧ health_rate_gate none s = Except.ok (true, s, 0) :=
  ⟨rfl, rfl⟩

/-! ## Claim C8: error mapping of the single-question create endpoint -/

/-- `get_current_user` (main.py lines 172-182): the bearer token must equal
the admin password, otherwise 401. -/
def get_current_user (adminPassword token : String) : Except Nat String :=
  if token = adminPassword then Except.ok "admin"
  else Except.error 401

/-- Modelled from the spec: the FastAPI bearer scheme (`OAuth2PasswordBearer`,
main.py line 60) rejects a request carrying no credential with 401 before the
endpoint body runs; that framework step is not part of src/. -/
def bearer_token (authorization : Option String) : Except Nat String :=
  match authorization with
  | none => Except.error 401
  | some t => Except.ok t

/-- `post_question` (main.py lines 185-216): dependencies (bearer extraction,
then `get_current_user`) run first; then `create_question`'s outcome is
mapped — `UniqueViolation` to 400, any other exception to 500, a null id to
500, otherwise the created id is returned (201). -/
def post_question (adminPassword : String) (authorization : Option String)
    (createResult : Except PGError (Option Nat)) : Except Nat Nat :=
  match bearer_token authorization with
  | Except.error c => Except.error c
  | Except.ok t =>
    match get_current_user adminPassword t with
    | Except.error c => Except.error c
    | Except.ok _ =>
      match createResult with
      | Except.error PGError.uniqueViolation => Except.error 400
      | Except.error _ => Except.error 500
      | Except.ok none => Except.error 500
      | Except.ok (some qid) => Except.ok qid

/-- C8: the endpoint maps persistence outcomes exactly: uniqueness violation
gives 400, an absent or invalid bearer credential gives 401 (before any
persistence work), and any other persistence failure — including a null
returned id — gives 500, failing the whole request. -/
theorem post_question_error_mapping (adminPassword : String)
    (authorization : Option String)
    (createResult : Except PGError (Option Nat)) :
    (authorization = none →
      post_question adminPassword authorization createResult = Except.error 401)
    ∧ (∀ t, authorization = some t → t ≠ adminPassword →
      post_question adminPassword authorization createResult = Except.error 401)
    ∧ (createResult = Except.error PGError.uniqueViolation →
      post_question adminPassword (some adminPassword) createResult =
        Except.error 400)
    ∧ (∀ e, createResult = Except.error e → e ≠ PGError.uniqueViolation →
      post_question adminPassword (some adminPassword) createResult =
        Except.error 500)
    ∧ (createResult = Except.ok none →
      post_question adminPassword (some adminPassword) createResult =
        Except.error 500) := by
  refine ⟨?_, ?_, ?_, ?_, ?_⟩
  · intro h
    rw [h]
    rfl
  · intro t h hne
    rw [h]
    simp [post_question, bearer_token, get_current_user, hne]
  · intro h
    rw [h]
    simp [post_question, bearer_token, get_current_user]
  · intro e h hne
    rw [h]
    cases e with
    | uniqueViolation => exact absurd rfl hne
    | interfaceError => simp [post_question, bearer_token, get_current_user]
    | operationalError => simp [post_question, bearer_token, get_current_user]
    | otherError => simp [post_question, bearer_token, get_current_user]
  · intro h
    rw [h]
    simp [post_question, bearer_token, get_current_user]

theorem post_question_error_mapping_witness :
    ((Except.error PGError.uniqueViolation :
        Except PGError (Option Nat)) = Except.error PGError.uniqueViolation)
    ∧ post_question "pw" (some "pw")
        (Except.error PGError.uniqueViolation) = Except.error 400 :=
  ⟨rfl, (post_question_error_mapping "pw" (some "pw")
    (Except.error PGError.uniqueViolation)).2.2.1 rfl⟩

/-! ## Claim C6: bulk insert with per-item transactions -/

/-- One item of the bulk payload (the dict consumed at lines 288-294). -/
structure QuestionIn where
  question : String
  kanda : Option String
  tags : List String
  difficulty : Option String
  answers : List (String × Bool)
deriving DecidableEq, Repr

/-- The relevant relational state for the bulk write: the serial id counter,
the committed question rows `(id, text)` — `text` carries the UNIQUE
constraint — and the committed answer rows `(question_id, answer,
is_correct)`. -/
structure PGState where
  nextId : Nat
  questionRows : List (Nat × String)
  answerRows : List (Nat × String × Bool)
deriving DecidableEq, Repr

/-- Whether inserting `text` would violate the UNIQUE constraint on
`questions.question`. -/
def questionExists (s : PGState) (text : String) : Bool :=
  s.questionRows.any (fun r => r.2 == text)

/-- The `for index, question in enumerate(questions)` loop of
`create_questions_bulk` (lines 285-313).  Each iteration is its own
transaction: a `UniqueViolation` on the question insert is caught, the
1-based index is appended to the skipped list and the state is untouched
(`continue` before anything was written); otherwise the question row and its
answer rows are committed together and the returned id collected. -/
def bulkLoop (s : PGState) (index : Nat) :
    List QuestionIn → (List Nat × List Nat) × PGState
  | [] => (([], []), s)
  | q :: qs =>
    if questionExists s q.question then
      let r := bulkLoop s (index + 1) qs
      ((r.1.1, (index + 1) :: r.1.2), r.2)
    else
      let s1 : PGState :=
        ⟨s.nextId + 1, s.questionRows ++ [(s.nextId, q.question)],
         s.answerRows ++ q.answers.map (fun a => (s.nextId, a.1, a.2))⟩
      let r := bulkLoop s1 (index + 1) qs
      ((s.nextId :: r.1.1, r.1.2), r.2)

/-- `create_questions_bulk` (lines 272-314): returns `(inserted_ids,
skipped_rows)` and the final table state. -/
def create_questions_bulk (qs : List QuestionIn) (s : PGState) :
    (List Nat × List Nat) × PGState :=
  bulkLoop s 0 qs

theorem bulkLoop_counts :
    ∀ (qs : List QuestionIn) (s : PGState) (index : Nat),
    (bulkLoop s index qs).1.1.length + (bulkLoop s index qs).1.2.length =
      qs.length := by
  intro qs
  induction qs with
  | nil => intro s index; rfl
  | cons q qs ih =>
    intro s index
    by_cases h : questionExists s q.question
    · simp only [bulkLoop, if_pos h, List.length_cons]
      rw [Nat.add_succ, ih]
    · simp only [bulkLoop, if_neg h, List.length_cons]
      rw [Nat.succ_add, ih]

/-- C6: every item is either inserted or skipped (their counts sum to the
batch size); in a 3-item batch whose second item's text already exists while
items 1 and 3 are fresh and mutually distinct, the result is two inserted ids
(items 1 and 3, in order), skipped indices exactly `[2]`, and both sibling
rows are committed — the duplicate aborts only its own transaction. -/
theorem create_questions_bulk_per_item_tx :
    (∀ (qs : List QuestionIn) (s : PGState),
      (create_questions_bulk qs s).1.1.length +
        (create_questions_bulk qs s).1.2.length = qs.length)
    ∧ (∀ (s : PGState) (q1 q2 q3 : QuestionIn),
      questionExists s q2.question = true →
      questionExists s q1.question = false →
      questionExists s q3.question = false →
      q1.question ≠ q3.question →
      (create_questions_bulk [q1, q2, q3] s).1.1 = [s.nextId, s.nextId + 1]
      ∧ (create_questions_bulk [q1, q2, q3] s).1.2 = [2]
      ∧ (s.nextId, q1.question) ∈ (create_questions_bulk [q1, q2, q3] s).2.questionRows
      ∧ (s.nextId + 1, q3.question) ∈
          (create_questions_bulk [q1, q2, q3] s).2.questionRows) := by
  constructor
  · intro qs s
    exact bulkLoop_counts qs s 0
  · intro s q1 q2 q3 h2 h1 h3 hne
    have hb13 : (q1.question == q3.question) = false := by simpa using hne
    have hex2 : questionExists
        ⟨s.nextId + 1, s.questionRows ++ [(s.nextId, q1.question)],
         s.answerRows ++ q1.answers.map (fun a => (s.nextId, a.1, a.2))⟩
        q2.question = true := by
      simp only [questionExists, List.any_append] at h2 ⊢
      rw [h2]
      rfl
    have hex3 : questionExists
        ⟨s.nextId + 1, s.questionRows ++ [(s.nextId, q1.question)],
         s.answerRows ++ q1.answers.map (fun a => (s.nextId, a.1, a.2))⟩
        q3.question = false := by
      simp only [questionExists, List.any_append] at h3 ⊢
      rw [h3]
      simp [hb13]
    refine ⟨?_, ?_, ?_, ?_⟩ <;>
      simp [create_questions_bulk, bulkLoop, h1, hex2, hex3]

def exBatchState : PGState := ⟨10, [(1, "dup")], []⟩

def exQ1 : QuestionIn := ⟨"fresh1", none, [], none, [("a", true)]⟩

def exQ2 : QuestionIn := ⟨"dup", none, [], none, []⟩

def exQ3 : QuestionIn := ⟨"fresh2", none, [], none, []⟩

theorem create_questions_bulk_per_item_tx_witness :
    (questionExists exBatchState exQ2.question = true
      ∧ questionExists exBatchState exQ1.question = false
      ∧ questionExists exBatchState exQ3.question = false
      ∧ exQ1.question ≠ exQ3.question)
    ∧ ((create_questions_bulk [exQ1, exQ2, exQ3] exBatchState).1.1 =
        [exBatchState.nextId, exBatchState.nextId + 1]
      ∧ (create_questions_bulk [exQ1, exQ2, exQ3] exBatchState).1.2 = [2]
      ∧ (exBatchState.nextId, exQ1.question) ∈
          (create_questions_bulk [exQ1, exQ2, exQ3] exBatchState).2.questionRows
      ∧ (exBatchState.nextId + 1, exQ3.question) ∈
          (create_questions_bulk [exQ1, exQ2, exQ3] exBatchState).2.questionRows) :=
  ⟨⟨by decide, by decide, by decide, by decide⟩,
    create_questions_bulk_per_item_tx.2 exBatchState exQ1 exQ2 exQ3
      (by decide) (by decide) (by decide) (by decide)⟩
